import Mathlib

/-!
Verification of the giuplus text-editor core (giuplus.go) against its
natural-language specification.

The buffer is modelled as a list of bytes (`List ℕ`), exactly as the Go code
scans it: `data.Buffer()` is a byte slice, and every loop in the source
(`for i, c := range buff`) ranges over bytes.  The Pivot Marker U+07FF is the
two-byte UTF-8 sequence `0xDF 0xBF`, i.e. `[223, 191]`; a linefeed is byte
`10`, a carriage return byte `13`, a space byte `32`.  Text measurement
(`TextWidth` / `g.CalcTextSize`) and the widget width (`g.GetWidgetWidth`)
are external capabilities of the rendering toolkit; they are modelled as an
abstract measurement function `f : List ℕ → ℕ` and an abstract available
width `w : ℕ` (only the order comparison `> w` is ever used by the code).
-/

/-- The Entry Filter, from `WrapInputtextMultiline`, lines 125-129 of
giuplus.go: on a char-filter event, an incoming `\n` (codepoint 10) is
replaced by the pivot codepoint U+07FF (2047); every other codepoint is
committed unchanged.  Event characters are single codepoints (runes). -/
def entryFilter (c : ℕ) : ℕ :=
  if c = 10 then 2047 else c

/-- The pivot-expansion of line 134 of giuplus.go:
`strings.ReplaceAll(string(buff), "߿", "\r\n")` at the byte level.
It replaces every (leftmost, non-overlapping) occurrence of the two-byte
pattern `[223, 191]` (the UTF-8 encoding of U+07FF) by the two bytes
`[13, 10]` (CR LF).  Both the pattern and the replacement are two bytes, so
the byte length of the buffer is preserved, and the copy-back loop on lines
135-137 copies the whole replaced buffer. -/
def expandPivot : List ℕ → List ℕ
  | [] => []
  | [c] => [c]
  | c1 :: c2 :: rest =>
    if c1 = 223 ∧ c2 = 191 then 13 :: 10 :: expandPivot rest
    else c1 :: expandPivot (c2 :: rest)

/-- Step 0 of the Line-Break Normalizer, lines 132-138 of giuplus.go: the
pivot expansion together with its modification signal.  The source calls
`data.MarkBufferModified()` on line 138 unconditionally, after the copy-back
loop, so the signal component is `true` for every input. -/
def expandPivotStep (buff : List ℕ) : List ℕ × Bool :=
  (expandPivot buff, true)

/-- Step 1 of the Line-Break Normalizer, lines 140-153 of giuplus.go: the
left-to-right scan that overwrites with a space (32) every linefeed (10) not
protected by the `cr` flag, and marks the buffer modified when it does.  In
the rewrite branch the source leaves `cr` untouched (it was `false`);
otherwise `cr` becomes whether the current byte is a carriage return (13).
The second component is the modification signal of this step alone. -/
def zapLoop : Bool → List ℕ → List ℕ × Bool
  | _, [] => ([], false)
  | cr, c :: rest =>
    if c = 10 ∧ cr = false then
      (32 :: (zapLoop false rest).1, true)
    else
      (c :: (zapLoop (decide (c = 13)) rest).1, (zapLoop (decide (c = 13)) rest).2)

/-- The whole Line-Break Normalizer pass (steps 0 and 1, lines 132-153 of
giuplus.go), before the Greedy Word-Wrapper runs.  The modification signal
is the disjunction of the signals of the two steps (the host is informed if
`MarkBufferModified` was called at least once). -/
def normalizeLineBreaks (buff : List ℕ) : List ℕ × Bool :=
  let e := expandPivotStep buff
  let z := zapLoop false e.1
  (z.1, e.2 || z.2)

/-- The mutable scan state of the Greedy Word-Wrapper, lines 155-156 of
giuplus.go: the current buffer contents, the two cursors `nl` and `spc`
(both initialised to 0), and whether `MarkBufferModified` has been called. -/
structure WrapState where
  buff : List ℕ
  nl : ℕ
  spc : ℕ
  modified : Bool
deriving DecidableEq

/-- One iteration of the wrapper loop, lines 158-169 of giuplus.go, at byte
index `i`: read `c = buff[i]` from the current buffer, set `nl := i` if `c`
is a linefeed, set `spc := i` if `c` is a space, then, if the measured width
of the slice `buff[nl:i]` (elements `nl` to `i-1` of the current buffer)
exceeds `w` and `spc > 0`, overwrite `buff[spc]` with a linefeed and mark
the buffer modified.  The cursors are not reset by the overwrite, exactly as
in the source.  (`getD i 0` equals `buff[i]` for every index the pass ever
visits, since the fold below only uses `i < buff.length` and `set` preserves
length.) -/
def wrapStep (f : List ℕ → ℕ) (w : ℕ) (s : WrapState) (i : ℕ) : WrapState :=
  let c := s.buff.getD i 0
  let nl := if c = 10 then i else s.nl
  let spc := if c = 32 then i else s.spc
  if w < f ((s.buff.drop nl).take (i - nl)) ∧ 0 < spc then
    ⟨s.buff.set spc 10, nl, spc, true⟩
  else
    ⟨s.buff, nl, spc, s.modified⟩

/-- The Greedy Word-Wrapper pass, lines 154-169 of giuplus.go: fold the loop
body over the byte indices `0, 1, ..., buff.length - 1`, starting from
`nl = 0`, `spc = 0`, unmodified.  Returns the final buffer and whether the
pass called `MarkBufferModified`.  `f` models `TextWidth` and `w` models
`g.GetWidgetWidth(e.Widget())`. -/
def wrapPass (f : List ℕ → ℕ) (w : ℕ) (buff : List ℕ) : List ℕ × Bool :=
  let s := (List.range buff.length).foldl (wrapStep f w) ⟨buff, 0, 0, false⟩
  (s.buff, s.modified)

/-- The TextEditor state, from the struct on lines 10-20 of giuplus.go.  The
`onActivate` field of the Go struct is a nilable function over the editor
itself; a function field over the structure being defined is not admissible
in a Lean structure, so the callback is passed separately (as an
`Option (TextEditor → TextEditor)`) to the operations that use it. -/
structure TextEditor where
  multiline : Bool
  wordwrap : Bool
  autoSelect : Bool
  width : Int
  height : Int
  text : List ℕ
  selStart : Int
  selEnd : Int
deriving DecidableEq

/-- `NewTextEditor`, lines 24-33 of giuplus.go (the activation callback is
modelled separately, see `TextEditor`).  Fields not listed in the Go
composite literal take the Go zero value. -/
def newTextEditor (width height : Int) : TextEditor :=
  { multiline := false, wordwrap := false, autoSelect := true, width := width,
    height := height, text := [], selStart := 0, selEnd := 0 }

/-- `NewTextEditorMultiline`, lines 37-45 of giuplus.go. -/
def newTextEditorMultiline (width height : Int) : TextEditor :=
  { multiline := true, wordwrap := true, autoSelect := true, width := width,
    height := height, text := [], selStart := 0, selEnd := 0 }

/-- The renderable widget description returned by `Widget()`, lines 53-74 of
giuplus.go: a multiline input (whose registered callback is
`WrapInputtextMultiline`, i.e. the normalizer and wrapper pipeline) or a
single-line input (whose callback only tracks the selection and invokes the
activation callback). -/
inductive WidgetDesc where
  | inputTextMultiline (text : List ℕ)
  | inputText (text : List ℕ)
deriving DecidableEq

/-- `(*TextEditor).Widget()`, lines 53-74 of giuplus.go: dispatch on
`e.multiline` alone; the `wordwrap` field is never consulted. -/
def TextEditor.widget (e : TextEditor) : WidgetDesc :=
  if e.multiline then WidgetDesc.inputTextMultiline e.text
  else WidgetDesc.inputText e.text

/-- The two callback events delivered by the host that
`WrapInputtextMultiline` handles (lines 124-131 of giuplus.go): the
char-filter event carrying the incoming codepoint, and the always event
carrying the current buffer bytes. -/
inductive InputEvent where
  | charFilter (c : ℕ)
  | always (buff : List ℕ)
deriving DecidableEq

/-- The observable outcome of one `WrapInputtextMultiline` invocation: the
(possibly substituted) event character for a char-filter event, or the final
buffer plus whether `MarkBufferModified` was called for an always event. -/
inductive CallbackResult where
  | eventChar (c : ℕ)
  | buffer (b : List ℕ) (modified : Bool)
deriving DecidableEq

/-- `WrapInputtextMultiline`, lines 123-172 of giuplus.go.  `widgetWidth`
models `g.GetWidgetWidth` (a query of the rendering toolkit keyed by the
widget description) and `f` models `TextWidth`.  On the always event the
source runs the Line-Break Normalizer and then the Greedy Word-Wrapper on
the same buffer, reading the available width from
`g.GetWidgetWidth(e.Widget())` in between; the editor `e` is used for
nothing else. -/
def wrapInputtextMultiline (widgetWidth : WidgetDesc → ℕ) (f : List ℕ → ℕ)
    (e : TextEditor) : InputEvent → CallbackResult
  | InputEvent.charFilter c => CallbackResult.eventChar (entryFilter c)
  | InputEvent.always buff =>
    let n := normalizeLineBreaks buff
    let p := wrapPass f (widgetWidth e.widget) n.1
    CallbackResult.buffer p.1 (n.2 || p.2)

/-- The single-line callback, lines 63-73 of giuplus.go, on its
`InputTextFlagsCallbackAlways` event: store the reported selection bounds
into the editor, then call `e.onActivate(e)`.  The source performs no nil
check: in Go, calling a nil function value is a runtime panic, which aborts
the render loop.  The panic is modelled as `Except.error` carrying the
editor state at the moment of the crash (the selection bounds have already
been written); a registered callback yields `Except.ok` of the editor it
returns. -/
def inputTextCallback (onActivate : Option (TextEditor → TextEditor))
    (e : TextEditor) (selStart selEnd : Int) : Except TextEditor TextEditor :=
  let e2 := { e with selStart := selStart, selEnd := selEnd }
  match onActivate with
  | none => Except.error e2
  | some f => Except.ok (f e2)

/-- Decidable checker for an occurrence of the pivot byte pair `[223, 191]`
(the UTF-8 encoding of U+07FF) anywhere in a byte buffer.  `hasPivotB l`
is `true` exactly when `[223, 191]` is an infix of `l`; see the bridging
theorem `hasPivotB_iff` below. -/
def hasPivotB : List ℕ → Bool
  | [] => false
  | a :: l => (a == 223 && l.head? == some 191) || hasPivotB l

/-- `hasPivotB` decides presence of the pivot byte pair: it is `true` exactly
when `[223, 191]` occurs as an infix (a contiguous byte substring). -/
theorem hasPivotB_iff (l : List ℕ) : hasPivotB l = true ↔ [223, 191] <:+: l := by
  constructor
  · intro h
    induction l with
    | nil => simp [hasPivotB] at h
    | cons a l ih =>
      simp only [hasPivotB, Bool.or_eq_true, Bool.and_eq_true, beq_iff_eq] at h
      rcases h with ⟨ha, hh⟩ | h
      · obtain ⟨t, ht⟩ : ∃ t, l = 191 :: t := by
          cases l with
          | nil => simp at hh
          | cons b t => simp at hh; exact ⟨t, by rw [hh]⟩
        subst ha; subst ht
        exact ⟨[], t, rfl⟩
      · obtain ⟨s, t, hst⟩ := ih h
        exact ⟨a :: s, t, by simp [← hst]⟩
  · rintro ⟨s, t, hst⟩
    subst hst
    induction s with
    | nil => simp [hasPivotB]
    | cons b s ih =>
      simp only [List.cons_append, hasPivotB, Bool.or_eq_true]
      exact Or.inr ih

/-- `hasPivotB l = false` exactly when the pivot byte pair does not occur. -/
theorem noPivot_iff (l : List ℕ) : hasPivotB l = false ↔ ¬ [223, 191] <:+: l := by
  rw [← hasPivotB_iff]
  cases hasPivotB l <;> simp

/-- The first byte of an expanded nonempty buffer is the original first byte
or the carriage return 13 that an expanded pivot starts with. -/
theorem expandPivot_head (c : ℕ) (l : List ℕ) :
    (expandPivot (c :: l)).head? = some c ∨ (expandPivot (c :: l)).head? = some 13 := by
  cases l with
  | nil => left; rfl
  | cons d r =>
    by_cases hp : c = 223 ∧ d = 191
    · right; simp [expandPivot, hp]
    · left; simp [expandPivot, hp]

/-- Core facts about the pivot expansion, proved together by strong induction
on the buffer length: the expanded buffer contains no pivot byte pair, the
byte length is preserved (both the pattern and its replacement are two
bytes), and a buffer without the pivot byte pair is left unchanged. -/
theorem expandPivot_aux : ∀ (n : ℕ) (l : List ℕ), l.length ≤ n →
    hasPivotB (expandPivot l) = false ∧ (expandPivot l).length = l.length ∧
    (hasPivotB l = false → expandPivot l = l) := by
  intro n
  induction n with
  | zero =>
    intro l hl
    have : l = [] := List.eq_nil_of_length_eq_zero (Nat.le_zero.mp hl)
    subst this
    exact ⟨rfl, rfl, fun _ => rfl⟩
  | succ n ih =>
    intro l hl
    match l with
    | [] => exact ⟨rfl, rfl, fun _ => rfl⟩
    | [c] =>
      refine ⟨?_, rfl, fun _ => rfl⟩
      simp [expandPivot, hasPivotB]
    | c1 :: c2 :: rest =>
      simp only [List.length_cons] at hl
      by_cases hp : c1 = 223 ∧ c2 = 191
      · have e : expandPivot (c1 :: c2 :: rest) = 13 :: 10 :: expandPivot rest := by
          simp [expandPivot, hp]
        obtain ⟨h1, h2, _⟩ := ih rest (by omega)
        refine ⟨?_, ?_, ?_⟩
        · rw [e]
          simp [hasPivotB, h1]
        · rw [e]
          simp [h2]
        · intro hno
          exfalso
          rw [hp.1, hp.2] at hno
          simp [hasPivotB] at hno
      · have e : expandPivot (c1 :: c2 :: rest) = c1 :: expandPivot (c2 :: rest) := by
          simp [expandPivot, hp]
        obtain ⟨h1, h2, h3⟩ := ih (c2 :: rest) (by simp; omega)
        refine ⟨?_, ?_, ?_⟩
        · rw [e]
          have hb : (c1 == 223 && (expandPivot (c2 :: rest)).head? == some 191) = false := by
            by_cases hc1 : c1 = 223
            · have hc2 : c2 ≠ 191 := fun h => hp ⟨hc1, h⟩
              rcases expandPivot_head c2 rest with hh | hh <;> simp [hh, hc1, hc2]
            · simp [hc1]
          simp [hasPivotB, hb, h1]
        · rw [e]
          simp only [List.length_cons, h2]
        · intro hno
          have hno2 : hasPivotB (c2 :: rest) = false := by
            simp only [hasPivotB, Bool.or_eq_false_iff] at hno
            simp [hasPivotB, Bool.or_eq_false_iff, hno.2.1, hno.2.2]
          rw [e, h3 hno2]

/-- The expanded buffer never contains the pivot byte pair. -/
theorem expandPivot_noPivot (l : List ℕ) : hasPivotB (expandPivot l) = false :=
  (expandPivot_aux l.length l le_rfl).1

/-- Pivot expansion preserves the byte length of the buffer. -/
theorem expandPivot_length (l : List ℕ) : (expandPivot l).length = l.length :=
  (expandPivot_aux l.length l le_rfl).2.1

/-- A buffer without the pivot byte pair is left unchanged by the expansion. -/
theorem expandPivot_id (l : List ℕ) (h : hasPivotB l = false) : expandPivot l = l :=
  (expandPivot_aux l.length l le_rfl).2.2 h

/-- The first byte of the rewritten buffer is a space produced by a rewrite
or the original first byte. -/
theorem zapLoop_head (l : List ℕ) (cr : Bool) (x : ℕ)
    (h : (zapLoop cr l).1.head? = some x) : x = 32 ∨ l.head? = some x := by
  cases l with
  | nil => simp [zapLoop] at h
  | cons c rest =>
    by_cases hb : c = 10 ∧ cr = false
    · simp [zapLoop, hb] at h
      exact Or.inl h.symm
    · simp [zapLoop, hb] at h
      exact Or.inr (by simp [h])

/-- The linefeed rewrite never introduces a pivot byte pair: it only writes
the byte 32, and a surviving adjacent pair comes from an identical adjacent
pair of the input. -/
theorem zapLoop_noPivot (l : List ℕ) : ∀ cr : Bool,
    hasPivotB l = false → hasPivotB (zapLoop cr l).1 = false := by
  induction l with
  | nil => intro cr _; simp [zapLoop, hasPivotB]
  | cons c rest ih =>
    intro cr h
    simp only [hasPivotB, Bool.or_eq_false_iff, Bool.and_eq_false_iff] at h
    by_cases hb : c = 10 ∧ cr = false
    · simp only [zapLoop, hb, if_pos, hasPivotB]
      simp [ih false h.2]
    · simp only [zapLoop, hb, if_neg, hasPivotB]
      have hrec := ih (decide (c = 13)) h.2
      have hpair : (c == 223 && (zapLoop (decide (c = 13)) rest).1.head? == some 191) = false := by
        by_cases hc : c = 223
        · cases hh : (zapLoop (decide (c = 13)) rest).1.head? with
          | none => simp [hh]
          | some x =>
            rcases zapLoop_head rest (decide (c = 13)) x hh with h32 | horig
            · subst h32; simp [hh]
            · by_cases hx : x = 191
              · exfalso
                subst hx
                rcases h.1 with h223 | h191
                · simp [hc] at h223
                · rw [horig] at h191
                  simp at h191
              · simp [hh, hx]
        · simp [hc]
      simp [hpair, hrec]

/-- After the linefeed rewrite, a linefeed at the head of the output forces
the incoming `cr` flag to be set, and inside the output every linefeed is
immediately preceded by a carriage return (byte 13). -/
theorem zapLoop_protected (l : List ℕ) : ∀ cr : Bool,
    ((zapLoop cr l).1.head? = some 10 → cr = true) ∧
    (zapLoop cr l).1.Chain' (fun a b => b = 10 → a = 13) := by
  induction l with
  | nil =>
    intro cr
    constructor
    · intro h; simp [zapLoop] at h
    · simp [zapLoop]
  | cons c rest ih =>
    intro cr
    by_cases hb : c = 10 ∧ cr = false
    · have e1 : zapLoop cr (c :: rest) = (32 :: (zapLoop false rest).1, true) := by
        simp only [zapLoop]
        rw [if_pos hb]
      rw [e1]
      constructor
      · intro h
        simp at h
      · show List.Chain' (fun a b => b = 10 → a = 13) (32 :: (zapLoop false rest).1)
        rw [List.chain'_cons']
        constructor
        · intro y hy h10
          exfalso
          have h0 := (ih false).1
          rw [Option.mem_def] at hy
          rw [h10] at hy
          simpa using h0 hy
        · exact (ih false).2
    · have e2 : zapLoop cr (c :: rest) =
          (c :: (zapLoop (decide (c = 13)) rest).1, (zapLoop (decide (c = 13)) rest).2) := by
        simp only [zapLoop]
        rw [if_neg hb]
      rw [e2]
      constructor
      · intro h
        simp at h
        rcases Decidable.not_and_iff_or_not.mp hb with hc | hcr
        · exact absurd h hc
        · cases cr with
          | false => exact absurd rfl hcr
          | true => rfl
      · show List.Chain' (fun a b => b = 10 → a = 13) (c :: (zapLoop (decide (c = 13)) rest).1)
        rw [List.chain'_cons']
        constructor
        · intro y hy h10
          have h0 := (ih (decide (c = 13))).1
          rw [Option.mem_def] at hy
          rw [h10] at hy
          exact of_decide_eq_true (h0 hy)
        · exact (ih (decide (c = 13))).2

/-- A buffer in which every linefeed is already protected by a carriage
return is a fixed point of the linefeed rewrite, and the rewrite fires no
modification signal on it. -/
theorem zapLoop_id (l : List ℕ) : ∀ cr : Bool,
    (l.head? = some 10 → cr = true) →
    l.Chain' (fun a b => b = 10 → a = 13) →
    zapLoop cr l = (l, false) := by
  induction l with
  | nil => intro cr _ _; rfl
  | cons c rest ih =>
    intro cr hh hc
    have hni : ¬ (c = 10 ∧ cr = false) := by
      rintro ⟨h1, h2⟩
      have hcr := hh (by rw [h1]; rfl)
      rw [hcr] at h2
      simp at h2
    rw [List.chain'_cons'] at hc
    have hrest : zapLoop (decide (c = 13)) rest = (rest, false) := by
      refine ih (decide (c = 13)) ?_ hc.2
      intro h10
      have : c = 13 := hc.1 10 (Option.mem_def.mpr h10) rfl
      simp [this]
    simp [zapLoop, hni, hrest]

/-- If the buffer of the wrap state contains no space byte and the space
cursor is 0, the wrapper fold leaves the buffer, the space cursor and the
modification flag untouched (the break condition requires `0 < spc`). -/
theorem wrapFold_inv (f : List ℕ → ℕ) (w : ℕ) (L : List ℕ) : ∀ s : WrapState,
    (∀ c ∈ s.buff, c ≠ 32) → s.spc = 0 →
    (L.foldl (wrapStep f w) s).buff = s.buff ∧
    (L.foldl (wrapStep f w) s).spc = 0 ∧
    (L.foldl (wrapStep f w) s).modified = s.modified := by
  induction L with
  | nil => intro s _ hs; exact ⟨rfl, hs, rfl⟩
  | cons i L ih =>
    intro s hb hs
    have hc : s.buff.getD i 0 ≠ 32 := by
      rcases lt_or_ge i s.buff.length with h | h
      · rw [List.getD_eq_getElem s.buff 0 h]
        exact hb _ (List.getElem_mem h)
      · rw [List.getD_eq_default s.buff 0 h]
        decide
    have hstep : wrapStep f w s i =
        ⟨s.buff, if s.buff.getD i 0 = 10 then i else s.nl, 0, s.modified⟩ := by
      simp only [wrapStep, if_neg hc, hs]
      simp
    rw [List.foldl_cons, hstep]
    exact ih ⟨s.buff, _, 0, s.modified⟩ hb rfl

/-- Claim C1 (confirmed): for every input buffer, after the Line-Break
Normalizer pass (pivot expansion followed by the unprotected-linefeed
rewrite, before the wrapper runs) the buffer contains no occurrence of the
Pivot Marker U+07FF — at the byte level, no occurrence of its UTF-8
encoding `[223, 191]` — and every remaining linefeed (byte 10) is
immediately preceded by a carriage return (byte 13): the first byte is not
a linefeed, and in every adjacent byte pair whose second byte is a linefeed
the first byte is 13. -/
theorem c1_normalizer_postcondition (buff : List ℕ) :
    ¬ [223, 191] <:+: (normalizeLineBreaks buff).1 ∧
    (normalizeLineBreaks buff).1.head? ≠ some 10 ∧
    (normalizeLineBreaks buff).1.Chain' (fun a b => b = 10 → a = 13) := by
  have hq : (normalizeLineBreaks buff).1 = (zapLoop false (expandPivot buff)).1 := rfl
  have hnp : hasPivotB (zapLoop false (expandPivot buff)).1 = false :=
    zapLoop_noPivot (expandPivot buff) false (expandPivot_noPivot buff)
  have hpr := zapLoop_protected (expandPivot buff) false
  refine ⟨?_, ?_, ?_⟩
  · rw [hq]
    exact (noPivot_iff _).mp hnp
  · rw [hq]
    intro h
    simpa using hpr.1 h
  · rw [hq]
    exact hpr.2

/-- Witness for C1: the postcondition evaluated on the concrete buffer
`[10, 223, 191, 97]` (a stray linefeed, a pivot, a letter); the normalizer
turns it into `[32, 13, 10, 97]`. -/
theorem c1_witness :
    ¬ [223, 191] <:+: (normalizeLineBreaks [10, 223, 191, 97]).1 ∧
    (normalizeLineBreaks [10, 223, 191, 97]).1.head? ≠ some 10 ∧
    (normalizeLineBreaks [10, 223, 191, 97]).1.Chain' (fun a b => b = 10 → a = 13) :=
  c1_normalizer_postcondition [10, 223, 191, 97]

/-- Claim C2 (code bug): the Greedy Word-Wrapper is not idempotent.  With
byte-count measurement and available width 3, a first pass over the buffer
"a b cdef" (bytes `[97,32,98,32,99,100,101,102]`) yields "a b\ncdef", and a
second pass over that output performs a further modification: it rewrites
the surviving space at offset 1 into a linefeed, producing "a\nb\ncdef" and
firing the modification signal again — not an instance of the
unbreakable-overflow-run exception.  The cause is that the pass never
resets its cursors: `nl` is not moved after an insertion and `spc` survives
crossing line breaks, contradicting the idempotence the spec requires. -/
theorem c2_wrap_second_pass_modifies :
    wrapPass List.length 3 [97, 32, 98, 32, 99, 100, 101, 102] =
      ([97, 32, 98, 10, 99, 100, 101, 102], true) ∧
    wrapPass List.length 3 [97, 32, 98, 10, 99, 100, 101, 102] =
      ([97, 10, 98, 10, 99, 100, 101, 102], true) := by
  exact ⟨by decide, by decide⟩

/-- Claim C3 (code bug): the wrapper never resets `spc` when it crosses a
linefeed, so a space seen on an earlier visual line IS used as a break
point for a later line, and after an insertion the cursors are not reset.
Concretely, on the buffer "a b\r\nlongword"
(bytes `[97,32,98,13,10,108,111,110,103,119,111,114,100]`), with byte-count
measurement and available width 5, the overflow happens on the second
visual line (inside "longword", which contains no space), yet the code
overwrites the space at offset 1 — on the first visual line, before the
manual break at offsets 3-4 — with a linefeed. -/
theorem c3_wrap_uses_stale_space :
    wrapPass List.length 5 [97, 32, 98, 13, 10, 108, 111, 110, 103, 119, 111, 114, 100] =
      ([97, 10, 98, 13, 10, 108, 111, 110, 103, 119, 111, 114, 100], true) := by
  decide

/-- Claim C4 (code bug): in single-line mode the callback on lines 63-73 of
giuplus.go stores the reported selection bounds and then calls
`e.onActivate(e)` without any nil check; when no activation callback is
registered this is a nil function call, which panics in Go (modelled as
`Except.error` carrying the state at the crash, with the selection already
updated).  The claim says the event must update Selection State and do
nothing else, never aborting. -/
theorem c4_nil_callback_panics :
    inputTextCallback none (newTextEditor 100 50) 2 5 =
      Except.error { newTextEditor 100 50 with selStart := 2, selEnd := 5 } := rfl

/-- Counterexample to claim C5 as stated: the buffer `[97]` ("a") is
already normalized — no pivot byte pair, no linefeed at all — yet running
the Line-Break Normalizer on it fires the buffer-modification signal,
because the pivot-expansion step calls `MarkBufferModified` unconditionally
(line 138 of giuplus.go). -/
theorem c5_counterexample_signal_fires :
    ¬ [223, 191] <:+: ([97] : List ℕ) ∧
    ([97] : List ℕ).head? ≠ some 10 ∧
    ([97] : List ℕ).Chain' (fun a b => b = 10 → a = 13) ∧
    (normalizeLineBreaks [97]).2 = true := by
  refine ⟨(noPivot_iff _).mp rfl, by decide, List.chain'_singleton _, rfl⟩

/-- Claim C5 (corrected): for every already-normalized buffer (no pivot
byte pair, no linefeed lacking an immediately preceding carriage return)
the Line-Break Normalizer leaves the buffer contents unchanged and its
unprotected-linefeed rewrite itself fires no modification signal, but the
pass as a whole still fires the signal, since the pivot-expansion step
signals unconditionally. -/
theorem c5_amended_normalize_id (buff : List ℕ)
    (hp : ¬ [223, 191] <:+: buff)
    (hh : buff.head? ≠ some 10)
    (hc : buff.Chain' (fun a b => b = 10 → a = 13)) :
    (normalizeLineBreaks buff).1 = buff ∧ (zapLoop false buff).2 = false ∧
    (normalizeLineBreaks buff).2 = true := by
  have hpB : hasPivotB buff = false := (noPivot_iff buff).mpr hp
  have he : expandPivot buff = buff := expandPivot_id buff hpB
  have hz : zapLoop false buff = (buff, false) :=
    zapLoop_id buff false (fun h => absurd h hh) hc
  refine ⟨?_, ?_, rfl⟩
  · show (zapLoop false (expandPivot buff)).1 = buff
    rw [he, hz]
  · rw [hz]

/-- Witness for the amended C5 at the normalized buffer `[97, 13, 10]`
("a" followed by a manual CR LF break). -/
theorem c5_amended_witness :
    (normalizeLineBreaks [97, 13, 10]).1 = [97, 13, 10] ∧
    (zapLoop false [97, 13, 10]).2 = false ∧
    (normalizeLineBreaks [97, 13, 10]).2 = true := by
  have hp : ¬ [223, 191] <:+: ([97, 13, 10] : List ℕ) := (noPivot_iff _).mp (by decide)
  have hh : ([97, 13, 10] : List ℕ).head? ≠ some 10 := by decide
  have hc : ([97, 13, 10] : List ℕ).Chain' (fun a b => b = 10 → a = 13) := by
    refine List.Chain'.cons ?_ (List.Chain'.cons ?_ (List.chain'_singleton _))
    · intro h
      exact absurd h (by decide)
    · intro h
      rfl
  exact c5_amended_normalize_id [97, 13, 10] hp hh hc

/-- Claim C6 (code bug): the wrapper measures the slice `buff[nl:i]`, which
never includes the character at the current index, so the final character
of the buffer never takes part in any measurement.  For the buffer
"aaaa bbbb" (bytes `[97,97,97,97,32,98,98,98,98]`) with byte-count
measurement and available width 8, the width of "aaaa " (5) fits and the
width of "aaaa bbbb" (9) exceeds the available width — exactly the
hypothesis of the claim — yet the widest fragment the code ever measures is
"aaaa bbb" (8, not above 8), so no break is inserted and the buffer is left
unchanged instead of becoming "aaaa\nbbbb". -/
theorem c6_boundary_width_no_wrap :
    List.length [97, 97, 97, 97, 32] ≤ 8 ∧
    8 < List.length [97, 97, 97, 97, 32, 98, 98, 98, 98] ∧
    wrapPass List.length 8 [97, 97, 97, 97, 32, 98, 98, 98, 98] =
      ([97, 97, 97, 97, 32, 98, 98, 98, 98], false) := by
  refine ⟨by decide, by decide, by decide⟩

/-- Counterexample to claim C7 as stated: the buffer `[223, 191]` (exactly
one Pivot Marker) is rewritten to `[13, 10]` — a replacement occurs — yet
the buffer byte length does not change, because the UTF-8 encoding of
U+07FF and the CR LF pair are both two bytes.  The claimed length change
and content shifting never happen at the byte level. -/
theorem c7_counterexample_length_preserved :
    expandPivotStep [223, 191] = ([13, 10], true) ∧
    (expandPivotStep [223, 191]).1.length = ([223, 191] : List ℕ).length := by
  exact ⟨by decide, by decide⟩

/-- Claim C7 (corrected): the pivot-expansion step replaces every
occurrence of the two-byte encoding of the Pivot Marker by the two-byte
carriage-return-linefeed sequence (head occurrences literally become
`13 :: 10 :: _`, and no occurrence remains afterwards), the buffer byte
length is preserved (so no content shifting is needed), and the host is
informed of modification whenever at least one replacement occurs — indeed
unconditionally. -/
theorem c7_amended_expand_pivot (l : List ℕ) :
    expandPivot (223 :: 191 :: l) = 13 :: 10 :: expandPivot l ∧
    ¬ [223, 191] <:+: (expandPivotStep l).1 ∧
    (expandPivotStep l).1.length = l.length ∧
    (expandPivotStep l).2 = true := by
  refine ⟨by simp [expandPivot], ?_, ?_, rfl⟩
  · exact (noPivot_iff _).mp (expandPivot_noPivot l)
  · exact expandPivot_length l

/-- Witness for the amended C7 at the concrete buffer `[97, 223, 191]`. -/
theorem c7_amended_witness :
    expandPivot (223 :: 191 :: [97, 223, 191]) = 13 :: 10 :: expandPivot [97, 223, 191] ∧
    ¬ [223, 191] <:+: (expandPivotStep [97, 223, 191]).1 ∧
    (expandPivotStep [97, 223, 191]).1.length = ([97, 223, 191] : List ℕ).length ∧
    (expandPivotStep [97, 223, 191]).2 = true :=
  c7_amended_expand_pivot [97, 223, 191]

/-- Claim C8 (confirmed): for every buffer with no space byte whose measured
width exceeds the available width, the wrapper inserts no break and leaves
the buffer unchanged, firing no modification signal: `spc` stays 0 for the
whole scan and the break condition requires `spc > 0`. -/
theorem c8_unbreakable_run_unchanged (f : List ℕ → ℕ) (w : ℕ) (buff : List ℕ)
    (hns : ∀ c ∈ buff, c ≠ 32) (_hover : w < f buff) :
    wrapPass f w buff = (buff, false) := by
  obtain ⟨h1, _, h3⟩ :=
    wrapFold_inv f w (List.range buff.length) ⟨buff, 0, 0, false⟩ hns rfl
  rw [Prod.ext_iff]
  exact ⟨h1, h3⟩

/-- Witness for C8: sixteen `x` bytes, byte-count measurement, width 3. -/
theorem c8_witness :
    (∀ c ∈ (List.replicate 16 120 : List ℕ), c ≠ 32) ∧
    3 < List.length (List.replicate 16 120 : List ℕ) ∧
    wrapPass List.length 3 (List.replicate 16 120) = (List.replicate 16 120, false) :=
  ⟨by decide, by decide,
    c8_unbreakable_run_unchanged List.length 3 (List.replicate 16 120) (by decide) (by decide)⟩

/-- Counterexample to claim C9 as stated: an incoming character that is
already the Pivot Marker U+07FF (codepoint 2047) is not a manual
line-break, yet the Entry Filter commits the Pivot Marker (it passes the
character through unchanged), so the committed character is the Pivot
Marker without the input being a linefeed: the "only if" direction of the
claimed equivalence fails at this input. -/
theorem c9_counterexample_pivot_passthrough :
    entryFilter 2047 = 2047 ∧ (2047 : ℕ) ≠ 10 ∧
    ¬ (entryFilter 2047 = 2047 ↔ (2047 : ℕ) = 10) := by
  refine ⟨rfl, by decide, ?_⟩
  intro h
  exact absurd (h.mp rfl) (by decide)

/-- Claim C9 (corrected): the Entry Filter commits the Pivot Marker if the
incoming character is the manual line-break character, and commits the
character unchanged otherwise; consequently, for every incoming character
other than U+07FF itself, the committed character is the Pivot Marker if
and only if the input is the manual line-break character. -/
theorem c9_amended_entry_filter (c : ℕ) :
    (c = 10 → entryFilter c = 2047) ∧ (c ≠ 10 → entryFilter c = c) ∧
    (c ≠ 2047 → (entryFilter c = 2047 ↔ c = 10)) := by
  refine ⟨fun h => by simp [entryFilter, h], fun h => by simp [entryFilter, h], fun h => ?_⟩
  by_cases h10 : c = 10
  · simp [entryFilter, h10]
  · show (if c = 10 then 2047 else c) = 2047 ↔ c = 10
    rw [if_neg h10]
    exact iff_of_false h h10

/-- Witness for the amended C9 at the ordinary input character `a` (65). -/
theorem c9_amended_witness :
    (65 : ℕ) ≠ 10 ∧ entryFilter 65 = 65 :=
  ⟨by decide, (c9_amended_entry_filter 65).2.1 (by decide)⟩

/-- Claim C10 (confirmed): the word-wrap flag has no effect beyond its own
getter/setter round trip.  For any editor, flipping only the `wordwrap`
field changes neither the widget returned by `Widget()` (hence neither the
available width `g.GetWidgetWidth(e.Widget())` nor the registered callback)
nor any outcome of `WrapInputtextMultiline` — the Entry Filter output, the
normalized and wrapped buffer and the modification signal are identical —
and the pipeline-bearing multiline widget is chosen exactly when the editor
is multiline, regardless of the flag. -/
theorem c10_wordwrap_no_effect (e : TextEditor) (b : Bool) (ww : WidgetDesc → ℕ)
    (f : List ℕ → ℕ) (ev : InputEvent) :
    ({ e with wordwrap := b } : TextEditor).widget = e.widget ∧
    wrapInputtextMultiline ww f { e with wordwrap := b } ev =
      wrapInputtextMultiline ww f e ev ∧
    (({ e with wordwrap := b } : TextEditor).widget = WidgetDesc.inputTextMultiline e.text ↔
      e.multiline = true) := by
  refine ⟨rfl, ?_, ?_⟩
  · cases ev <;> rfl
  · cases hm : e.multiline <;> simp [TextEditor.widget, hm]

/-- Witness for C10: a concrete multiline editor, flag flipped to `false`,
constant widget width 7, byte-count measurement, an always event. -/
theorem c10_witness :
    ({ newTextEditorMultiline 100 50 with wordwrap := false } : TextEditor).widget =
      (newTextEditorMultiline 100 50).widget ∧
    wrapInputtextMultiline (fun _ => 7) List.length
        { newTextEditorMultiline 100 50 with wordwrap := false }
        (InputEvent.always [97, 32, 98]) =
      wrapInputtextMultiline (fun _ => 7) List.length (newTextEditorMultiline 100 50)
        (InputEvent.always [97, 32, 98]) ∧
    (({ newTextEditorMultiline 100 50 with wordwrap := false } : TextEditor).widget =
        WidgetDesc.inputTextMultiline (newTextEditorMultiline 100 50).text ↔
      (newTextEditorMultiline 100 50).multiline = true) :=
  c10_wordwrap_no_effect (newTextEditorMultiline 100 50) false (fun _ => 7) List.length
    (InputEvent.always [97, 32, 98])
